import Mathlib

/-!
Verification of the MCPPPP FSB conversion engine (`src/fsb.cpp`).

This file shallowly embeds the conversion engine of `fsb.cpp`:
the line-oriented properties parser, the time-of-day tick encoder,
the RGB/HSV colour transform and transparency filter, the cubemap
slicer, and the per-file conversion driver `fsb::prop` together with
the batch driver `fsb::convert`.

Conventions of the embedding:
* C++ `std::string` values are modelled as `List Char` (abbreviated `Str`).
* C++ `double` values are modelled as exact rationals `ℚ`; each place where
  rounding of the concrete IEEE computation could differ from the exact
  rational value is discussed in a comment at the definition.
* C++ `int` is modelled as `ℤ` with `Int.tdiv`/`Int.tmod`, the C++
  truncating division and remainder.  The 32-bit bound of `int` is modelled
  where it is reachable: `std::stoi` reports values outside
  `[-2^31, 2^31)` with `std::out_of_range` (an exception the source never
  catches), and the tick arithmetic marks signed overflow of an
  intermediate `int` expression as undefined behaviour (`IntRes.ub`), about
  which the model asserts nothing further.
* file-system effects are modelled as explicit data: an existence oracle
  `Str → Bool` for the referenced source image, and a list of write actions
  produced by a conversion.
-/

abbrev Str := List Char

/-- The two characters trimmed by the option/value trimming loops in
`fsb.cpp` (`fsb.cpp:302-309`): space and tab. -/
def isWsTab (c : Char) : Bool := c = ' ' || c = '\t'

/-- Whitespace in the sense of C `isspace`, used by `stoi`/`stod` and
`std::stringstream` token extraction. -/
def isCSpace (c : Char) : Bool :=
  c = ' ' || c = '\t' || c = '\n' || c = '\x0b' || c = '\x0c' || c = '\r'

/-- `while (s.back() == ' ' || s.back() == '\t') s.pop_back();`
(`fsb.cpp:302-305`).  The C++ loop reads `back()` of an empty string
(undefined behaviour) when the whole string is whitespace; the model
stops at the empty string instead. -/
def trimEnd (s : Str) : Str := (s.reverse.dropWhile isWsTab).reverse

/-- `while (s.front() == ' ' || s.front() == '\t') s.erase(s.begin());`
(`fsb.cpp:306-309`), with the same guard remark as `trimEnd`. -/
def trimStart (s : Str) : Str := s.dropWhile isWsTab

/-- The option/value splitting loop of `fsb.cpp:287-301`: every `'='`
character flips `isvalue` to `true` (and is itself dropped); other
characters are appended to `option` before the first `'='` and to
`value` after it. -/
def splitLoop : Str → Str → Str → Bool → Str × Str
  | [], o, v, _ => (o, v)
  | c :: cs, o, v, isv =>
    if c = '=' then splitLoop cs o v true
    else if isv then splitLoop cs o (v ++ [c]) isv
    else splitLoop cs (o ++ [c]) v isv

/-- One line of a properties document, parsed as in `fsb.cpp:287-309`:
split by the `'='` loop, then trim trailing whitespace of the option and
leading whitespace of the value. -/
def parseLine (temp : Str) : Str × Str :=
  let p := splitLoop temp [] [] false
  (trimEnd p.1, trimStart p.2)

/-- Value of a digit string, most significant first. -/
def digitsToNat (ds : Str) : ℕ := ds.foldl (fun acc c => acc * 10 + (c.toNat - 48)) 0

/-- The digits part of `stoi`: longest leading digit run; failure
(`std::invalid_argument`) when there is none. -/
def natPartInt (r : Str) : Option ℕ :=
  let ds := r.takeWhile Char.isDigit
  if ds.isEmpty then none else some (digitsToNat ds)

/-- The sign-and-digits part of `stoi`, applied after whitespace
skipping. -/
def signPart : Str → Option Int
  | [] => none
  | c :: r =>
    if c = '-' then (natPartInt r).map fun n => -(n : Int)
    else if c = '+' then (natPartInt r).map fun n => (n : Int)
    else (natPartInt (c :: r)).map fun n => (n : Int)

/-- `INT_MAX` of the 32-bit `int` used throughout `fsb.cpp`. -/
def intMax : ℤ := 2147483647

/-- `INT_MIN` of the 32-bit `int`. -/
def intMin : ℤ := -2147483648

/-- Outcome of a C++ `int` computation in the tick encoder: a value, one
of the two `std::stoi` exceptions (`std::invalid_argument`, which
`fsb.cpp:344` catches, and `std::out_of_range`, which nothing in the
source catches), or signed-overflow undefined behaviour of an
intermediate `int` expression, about which the model asserts nothing. -/
inductive IntRes
  | ok (n : ℤ)
  | invalidArg
  | outOfRange
  | ub
deriving DecidableEq

/-- The value/exception selection of `std::stoi`: no conversion is
`std::invalid_argument`; a converted value outside the 32-bit `int`
range is `std::out_of_range`. -/
def stoi32Of : Option ℤ → IntRes
  | none => .invalidArg
  | some n => if n < intMin ∨ intMax < n then .outOfRange else .ok n

/-- `std::stoi`: skip leading whitespace, optional sign, then a digit
run; fail with `std::invalid_argument` when there is no digit and with
`std::out_of_range` when the converted value does not fit in `int`. -/
def stoi32 (s : Str) : IntRes := stoi32Of (signPart (s.dropWhile isCSpace))

/-- The decimal part of `stod`: digits with an optional fraction.
The exponent, hexadecimal, `inf` and `nan` forms accepted by `std::stod`
are not modelled; no claim depends on them. -/
def decPart (r : Str) : Option ℚ :=
  let ip := r.takeWhile Char.isDigit
  match r.drop ip.length with
  | '.' :: r2 =>
    let fp := r2.takeWhile Char.isDigit
    if ip.isEmpty && fp.isEmpty then none
    else some ((digitsToNat ip : ℚ) + (digitsToNat fp : ℚ) / (10 : ℚ) ^ fp.length)
  | _ => if ip.isEmpty then none else some (digitsToNat ip : ℚ)

/-- The sign-and-number part of `stod`, applied after whitespace
skipping. -/
def decSignPart : Str → Option ℚ
  | [] => none
  | c :: r =>
    if c = '-' then (decPart r).map fun q => -q
    else if c = '+' then decPart r
    else decPart (c :: r)

/-- `std::stod`: skip leading whitespace, optional sign, decimal number;
`none` models `std::invalid_argument`.  The `std::out_of_range` overflow
of `stod` is not modelled: it needs a magnitude beyond `DBL_MAX`
(a value of more than 308 digits), and no claim depends on it. -/
def stod? (s : Str) : Option ℚ := decSignPart (s.dropWhile isCSpace)

/-- Modelled from the spec: `mcpppp::findreplace` (declared in
`utility.h`, whose definition is not under `src/`) replaces every
occurrence of the search string with the replacement; in `fsb.cpp:323`
it is used only to turn the escaped colon `\:` into `:`, which is what
is modelled here. -/
def replaceEsc : Str → Str
  | [] => []
  | [c] => [c]
  | c :: c2 :: r =>
    if c = '\\' && c2 = ':' then ':' :: replaceEsc r
    else c :: replaceEsc (c2 :: r)

/-- The literal colon-erasure loop of `fsb.cpp:324-331`: scan with an
index, erase each `':'` in place and compensate the index. -/
def eraseColonsIdx (s : Str) (i : ℕ) : Str :=
  if h : i < s.length then
    if s.getD i ' ' = ':' then eraseColonsIdx (s.eraseIdx i) i
    else eraseColonsIdx s (i + 1)
  else s
termination_by s.length - i
decreasing_by
  · simp only [List.length_eraseIdx, h, if_pos]
    omega
  · omega

/-- Net effect of the colon-erasure loop (proved equal to
`eraseColonsIdx s 0` below): drop every `':'`. -/
def eraseColons (s : Str) : Str := s.filter (fun c => !(c = ':'))

/-- `std::round`: round to nearest, ties away from zero. -/
def roundAway (q : ℚ) : ℤ := if 0 ≤ q then ⌊q + 1 / 2⌋ else ⌈q - 1 / 2⌉

/-- `round(n / 3.0 * 5)` of `fsb.cpp:336`, computed exactly over `ℤ`.
The exact value `5n/3` has denominator 3, hence is never a tie of
`std::round`, and is at distance at least `1/6` from every tie — far
above the error of the `double` computation for `|n| < 1000` — so
`std::round` of the `double` value equals `roundAway (5n/3 : ℚ)`,
which equals `⌊5n/3 + 1/2⌋ = ⌊(10n+3)/6⌋` (the theorem
`roundTick_eq_roundAway` below proves the second step). -/
def roundTick (n : ℤ) : ℤ := (10 * n + 3).fdiv 6

/-- The first assignment of `fsb.cpp:336`:
`tempi = tempi / 1000 * 1000 + round((tempi % 1000) / 3.0 * 5);`
with C++ truncating `/` and `%` (`Int.tdiv`/`Int.tmod`). -/
def tickT1 (raw : ℤ) : ℤ := raw.tdiv 1000 * 1000 + roundTick (raw.tmod 1000)

/-- The full arithmetic of `fsb.cpp:336-337`, adding
`tempi = (tempi + 18000) % 24000;`. -/
def tickFormula (raw : ℤ) : ℤ := (tickT1 raw + 18000).tmod 24000

/-- The `int` arithmetic of `fsb.cpp:336-337` applied to a `stoi`
outcome.  Both assignments are `int` expressions: when the value of
`fsb.cpp:336` or of the addition `tempi + 18000` falls outside the
32-bit range, the C++ program has signed-overflow undefined behaviour,
recorded as `IntRes.ub`; exceptions pass through. -/
def tickOf : IntRes → IntRes
  | .ok raw =>
    if tickT1 raw < intMin ∨ intMax < tickT1 raw then .ub
    else if tickT1 raw + 18000 < intMin ∨ intMax < tickT1 raw + 18000 then .ub
    else .ok (tickFormula raw)
  | .invalidArg => .invalidArg
  | .outOfRange => .outOfRange
  | .ub => .ub

/-- The tick encoder of `fsb.cpp:321-337` (body of the fade-key branch),
with the colon-erasure loop written as its net effect `eraseColons`
(the equivalence with the literal indexed loop is the first conjunct of
the C3 theorem): replace `\:` by `:`, delete all `':'`, append `'0'`,
parse with `stoi` (whose `std::invalid_argument` is the caught
ParseError and whose `std::out_of_range` is never caught), then apply
the `int` arithmetic of `tickOf`. -/
def tickCore (value : Str) : IntRes :=
  tickOf (stoi32 (eraseColons (replaceEsc value) ++ ['0']))

/-- The same encoder with the literal indexed erasure loop. -/
def tickCoreIdx (value : Str) : IntRes :=
  tickOf (stoi32 (eraseColonsIdx (replaceEsc value) 0 ++ ['0']))

/-! ## Colour transform (`fsb.cpp:23-115`) and transparency filter (`fsb.cpp:118-145`) -/

/-- `std::numeric_limits<double>::epsilon()`. -/
def qeps : ℚ := 1 / 2 ^ 52

/-- The epsilon comparison `fsb::compare` (`fsb.cpp:23-27`). -/
def qcompare (a b : ℚ) : Bool := decide (|a - b| < qeps)

/-- Truncation toward zero, as in C++ `double → int` conversion and `std::fmod`. -/
def qtrunc (x : ℚ) : ℤ := if 0 ≤ x then ⌊x⌋ else ⌈x⌉

/-- `std::fmod x y = x - trunc (x / y) * y`. -/
def qfmod (x y : ℚ) : ℚ := x - y * qtrunc (x / y)

/-- `static_cast<uint8_t>` of a `double`; every value cast in the filter
lies in `[0, 256)`, where the conversion truncates toward zero. -/
def toByte (q : ℚ) : ℕ := (qtrunc q).toNat

/-- `fsb::rgb2hsv` (`fsb.cpp:30-70`), modelling `double` as `ℚ`:
scale each channel from `[0,255]` to `[0,100]`, then hue by the 6-branch
formula with the epsilon compare, saturation `100*d/max`, value `max`. -/
def rgb2hsv (first second third : ℚ) : ℚ × ℚ × ℚ :=
  let r := first * 20 / 51
  let g := second * 20 / 51
  let b := third * 20 / 51
  let mx := max (max r g) b
  let d := mx - min (min r g) b
  let hue : ℚ :=
    if qcompare d 0 then 0
    else if qcompare mx r then qfmod (60 * ((g - b) / d) + 360) 360
    else if qcompare mx g then qfmod (60 * ((b - r) / d) + 120) 360
    else qfmod (60 * ((r - g) / d) + 240) 360
  let sat : ℚ := if qcompare mx 0 then 0 else d / mx * 100
  (hue, sat, mx)

/-- `fsb::hsv2rgb` (`fsb.cpp:73-115`), modelling `double` as `ℚ`. -/
def hsv2rgb (first second third : ℚ) : ℚ × ℚ × ℚ :=
  let c := second * third / 10000
  let x := c * (1 - |qfmod (first / 60) 2 - 1|)
  let m := third / 100 - c
  if first < 60 then ((c + m) * 255, (x + m) * 255, m * 255)
  else if first < 120 then ((x + m) * 255, (c + m) * 255, m * 255)
  else if first < 180 then (m * 255, (c + m) * 255, (x + m) * 255)
  else if first < 240 then (m * 255, (x + m) * 255, (c + m) * 255)
  else if first < 300 then ((x + m) * 255, m * 255, (c + m) * 255)
  else ((c + m) * 255, m * 255, (x + m) * 255)

/-- The body of the opaque-pixel branch of `fsb::convert`
(`fsb.cpp:131-141`): RGB to HSV, new alpha = `V * 51 / 20`
(value rescaled from `[0,100]` to `[0,255]`), `V := 100`, HSV back to
RGB, each written back through the `uint8_t` cast. -/
def transformPixel (r g b : ℕ) : ℕ × ℕ × ℕ × ℕ :=
  let p := rgb2hsv (r : ℚ) (g : ℚ) (b : ℚ)
  let alpha : ℚ := p.2.2 * 51 / 20
  let q := hsv2rgb p.1 p.2.1 100
  (toByte q.1, toByte q.2.1, toByte q.2.2, toByte alpha)

/-- Byte index used throughout `fsb::convert` and the top-face rotation:
`w*h - (j+1)*w + i` (`w` is the byte width of a row, `h` the pixel
height, so `w*h` is the byte size of the buffer). -/
def idxB (w h i j : ℕ) : ℕ := w * h - (j + 1) * w + i

/-- All `(column, row)` iterations of the double loop
`for (i = 0; i < w; i += 4) for (j = 0; j < h; j++)`, outer loop first;
the byte column is `4 * p.1`. -/
def prodL (xs ys : List ℕ) : List (ℕ × ℕ) :=
  xs.foldr (fun x acc => (ys.map fun y => (x, y)) ++ acc) []

def convertPairs (w h : ℕ) : List (ℕ × ℕ) :=
  prodL (List.range ((w + 3) / 4)) (List.range h)

/-- One iteration of the pixel loop of `fsb::convert` (`fsb.cpp:124-144`):
if the pixel at the indexed position is fully opaque, rewrite its four
bytes through `transformPixel`; otherwise leave the buffer unchanged. -/
def stepB (w h : ℕ) (img : List ℕ) (p : ℕ × ℕ) : List ℕ :=
  let b := idxB w h (4 * p.1) p.2
  if img.getD (b + 3) 0 = 255 then
    let t := transformPixel (img.getD b 0) (img.getD (b + 1) 0) (img.getD (b + 2) 0)
    (((img.set b t.1).set (b + 1) t.2.1).set (b + 2) t.2.2.1).set (b + 3) t.2.2.2
  else img

/-- `fsb::convert` (`fsb.cpp:118-145`): the transparency filter.  The
`flag` argument models the global configuration `mcpppp::fsbtransparent`;
when it is off the image is returned unchanged. -/
def convertBuf (flag : Bool) (w h : ℕ) (img : List ℕ) : List ℕ :=
  if flag then (convertPairs w h).foldl (stepB w h) img else img

/-! ## Cubemap slicer (`fsb::png`, `fsb.cpp:156-249`) -/

/-- Byte width of one tile row (`outw = w / 3 * 4`, `fsb.cpp:175`). -/
def outwB (w : ℕ) : ℕ := w / 3 * 4

/-- Pixel height of one tile (`outh = h / 2`, `fsb.cpp:176`). -/
def outhP (h : ℕ) : ℕ := h / 2

/-- The band-splitting loops of `fsb.cpp:177-191` and `fsb.cpp:221-235`:
scan byte indices `[lo, lo+len)` of the source image in order and keep
those whose column `i % (w*4)` lies in tile column `k` (the else-if
chain `< outw` / `< 2*outw` / `< 3*outw`); bytes beyond `3*outw`
(present when `w % 3 ≠ 0`) are dropped, which crops the image. -/
def bandBytes (img : ℕ → ℕ) (w lo len k : ℕ) : List ℕ :=
  ((List.range' lo len).filter fun i =>
    decide (k * outwB w ≤ i % (w * 4)) && decide (i % (w * 4) < (k + 1) * outwB w)).map img

/-- The four bytes of the pixel starting at byte `b`. -/
def bytes4 (l : List ℕ) (b : ℕ) : List ℕ :=
  [l.getD b 0, l.getD (b + 1) 0, l.getD (b + 2) 0, l.getD (b + 3) 0]

/-- The top-face rotation loop (`fsb.cpp:198-207`): for each byte column
`4*ci` and each row `j`, push the four bytes of `image2` at
`outw*outh - (j+1)*outw + 4*ci`. -/
def topBuf (im2 : List ℕ) (ow oh : ℕ) : List ℕ :=
  ((List.range ((ow + 3) / 4)).map fun ci =>
    ((List.range oh).map fun j =>
      bytes4 im2 (idxB ow oh (4 * ci) j)).foldr (· ++ ·) []).foldr (· ++ ·) []

/-- A face image as handed to `lodepng::encode`: pixel width, pixel
height, byte buffer. -/
structure FaceOut where
  fw : ℕ
  fh : ℕ
  bytes : List ℕ
deriving DecidableEq

structure SixFaces where
  bottom : FaceOut
  top : FaceOut
  south : FaceOut
  west : FaceOut
  north : FaceOut
  east : FaceOut
deriving DecidableEq

/-- The six face images produced by `fsb::png` (`fsb.cpp:156-249`) from a
decoded RGBA image of pixel size `w × h` (`img` maps a byte index to its
value): split each half into three tile bands, apply the transparency
filter to each band, build the rotated `top` buffer from the converted
`image2`, and emit each buffer with the dimensions passed to
`lodepng::encode` at `fsb.cpp:210-248`. -/
def pngFaces (flag : Bool) (img : ℕ → ℕ) (w h : ℕ) : SixFaces :=
  let ow := outwB w
  let oh := outhP h
  let i1 := convertBuf flag ow oh (bandBytes img w 0 (w * 4 * oh) 0)
  let i2 := convertBuf flag ow oh (bandBytes img w 0 (w * 4 * oh) 1)
  let i3 := convertBuf flag ow oh (bandBytes img w 0 (w * 4 * oh) 2)
  let tp := topBuf i2 ow oh
  let j1 := convertBuf flag ow oh (bandBytes img w (w * 4 * oh) (w * 4 * oh) 0)
  let j2 := convertBuf flag ow oh (bandBytes img w (w * 4 * oh) (w * 4 * oh) 1)
  let j3 := convertBuf flag ow oh (bandBytes img w (w * 4 * oh) (w * 4 * oh) 2)
  { bottom := ⟨ow / 4, oh, i1⟩, top := ⟨oh, ow / 4, tp⟩, south := ⟨ow / 4, oh, i3⟩,
    west := ⟨ow / 4, oh, j1⟩, north := ⟨ow / 4, oh, j2⟩, east := ⟨ow / 4, oh, j3⟩ }

/-- Written from the spec's words, for comparison with `pngFaces`: the
unrotated tile of a `w × h` image at tile column `c` and tile row `r`
(tile size `w/3 × h/2`), row-major RGBA bytes. -/
def specTile (img : ℕ → ℕ) (w h c r : ℕ) : FaceOut :=
  let tw := w / 3
  let th := h / 2
  ⟨tw, th,
    ((List.range th).map fun y =>
      ((List.range tw).map fun x =>
        [img (((r * th + y) * w + (c * tw + x)) * 4),
         img (((r * th + y) * w + (c * tw + x)) * 4 + 1),
         img (((r * th + y) * w + (c * tw + x)) * 4 + 2),
         img (((r * th + y) * w + (c * tw + x)) * 4 + 3)]).foldr (· ++ ·) []).foldr (· ++ ·) []⟩

/-- Written from the spec's words: 90° clockwise rotation, mapping
source `(x, y)` to destination `(h-1-y, x)`; output is `fh × fw`. -/
def specRotCW (t : FaceOut) : FaceOut :=
  ⟨t.fh, t.fw,
    ((List.range t.fw).map fun dy =>
      ((List.range t.fh).map fun dx =>
        bytes4 t.bytes (((t.fh - 1 - dx) * t.fw + dy) * 4)).foldr (· ++ ·) []).foldr (· ++ ·) []⟩

/-- Written from the spec's words: 90° counter-clockwise rotation,
mapping source `(x, y)` to destination `(y, w-1-x)`; output is `fh × fw`. -/
def specRotCCW (t : FaceOut) : FaceOut :=
  ⟨t.fh, t.fw,
    ((List.range t.fw).map fun dy =>
      ((List.range t.fh).map fun dx =>
        bytes4 t.bytes ((dx * t.fw + (t.fw - 1 - dy)) * 4)).foldr (· ++ ·) []).foldr (· ++ ·) []⟩

/-! ## The properties mapper and conversion driver (`fsb::prop`, `fsb.cpp:252-533`) -/

/-- `std::stringstream` extraction with `>>`: whitespace-separated tokens. -/
def wsplit : Str → Str → List Str
  | [], cur => if cur = [] then [] else [cur]
  | c :: cs, cur =>
    if isCSpace c then (if cur = [] then wsplit cs [] else cur :: wsplit cs [])
    else wsplit cs (cur ++ [c])

def splitWs (s : Str) : List Str := wsplit s []

/-- The token lists built by the `weather`/`biomes` loops
(`fsb.cpp:386-411`).  The C++ loop `while (stream) { stream >> tok;
list.push_back(tok); }` runs once more after the last successful
extraction, pushing the (unchanged) last token again — and pushes one
empty token when the value has no tokens at all. -/
def wsList (v : Str) : List Str :=
  let ts := splitWs v
  ts ++ [ts.getLast?.getD []]

/-- The per-token character scan of the `heights` branch
(`fsb.cpp:418-440`): find a `'-'` at index `i`, split into
`min = height[0..i)` and the remainder `height[i+1..]`, parse both with
`stod` (`none` models the caught `std::invalid_argument`), append the
pair, and continue scanning the remainder from index `i+1` (the C++
loop keeps its index running over the shrunken string). -/
def heightsScan (height : Str) (i : ℕ) (acc : List (ℚ × ℚ)) : Option (List (ℚ × ℚ)) :=
  if hlt : i < height.length then
    if height.getD i ' ' = '-' then
      let rest := height.drop (i + 1)
      match stod? (height.take i), stod? rest with
      | some a, some b => heightsScan rest (i + 1) (acc ++ [(a, b)])
      | _, _ => none
    else heightsScan height (i + 1) acc
  else some acc
termination_by height.length - i
decreasing_by
  · simp only [List.length_drop]
    omega
  · omega

def heightsTokens : List Str → List (ℚ × ℚ) → Option (List (ℚ × ℚ))
  | [], acc => some acc
  | t :: ts, acc =>
    match heightsScan t 0 acc with
    | none => none
    | some acc2 => heightsTokens ts acc2

def heightsRun (v : Str) : Option (List (ℚ × ℚ)) := heightsTokens (splitWs v) []

/-- `properties.fade` of the output document. -/
structure FadeObj where
  startFadeIn : Option Int := none
  endFadeIn : Option Int := none
  startFadeOut : Option Int := none
  endFadeOut : Option Int := none
deriving DecidableEq

/-- `properties.rotation` of the output document. -/
structure RotObj where
  axis : List ℚ := [0, 180, 0]
  rotationSpeed : Option ℚ := none
  static3 : Option (List ℚ) := none
deriving DecidableEq

/-- `properties` of the output document (`static3` models the `static`
key set at `fsb.cpp:449`). -/
structure PropsObj where
  blendType : Str := "add".data
  shouldRotate : Option Bool := none
  rotation : RotObj := {}
  fade : FadeObj := {}
  sunSkyTint : Bool := false
deriving DecidableEq

/-- `conditions` of the output document. -/
structure CondObj where
  worlds : List Str := ["minecraft:overworld".data]
  weather : Option (List Str) := none
  biomes : Option (List Str) := none
  heights : Option (List (ℚ × ℚ)) := none
deriving DecidableEq

/-- The output document without its `textures` object, as initialised at
`fsb.cpp:261-279` (`skyType` models the `type` key). -/
structure DescCore where
  schemaVersion : ℕ := 2
  skyType : Str := "square-textured".data
  conditions : CondObj := {}
  blend : Bool := true
  props : PropsObj := {}
deriving DecidableEq

/-- The `textures` object (`fsb.cpp:520-525`). -/
structure TexObj where
  top : Str
  bottom : Str
  north : Str
  south : Str
  west : Str
  east : Str
deriving DecidableEq

/-- The finished output document. -/
structure Descriptor where
  core : DescCore
  textures : TexObj
deriving DecidableEq

/-- The mutable state of the line scan of `fsb::prop`: the four local
fade variables (`-1` sentinels, `fsb.cpp:254`), the `source` string
(initialised to the file stem, `fsb.cpp:260`), and the document. -/
structure ScanState where
  startfadein : Int := -1
  endfadein : Int := -1
  startfadeout : Int := -1
  endfadeout : Int := -1
  source : Str
  desc : DescCore := {}
deriving DecidableEq

def initState (stem : Str) : ScanState := { source := stem }

def fadeKeys : List Str :=
  ["startFadeIn".data, "startFadeOut".data, "endFadeIn".data, "endFadeOut".data]

/-- The exceptions that can escape `fsb::prop`:
`malformedSource` is the explicit
`throw std::out_of_range("FSB: source does not contain a /")`
(`fsb.cpp:492`); `atOutOfRange` is `std::out_of_range` from a
`std::string::at` access past the end (`fsb.cpp:454`);
`stoiOutOfRange` is the `std::out_of_range` of `std::stoi` on a fade
value beyond the `int` range (`fsb.cpp:334`; the catch at `fsb.cpp:344`
covers only `std::invalid_argument`). -/
inductive Thrown
  | malformedSource
  | atOutOfRange
  | stoiOutOfRange
deriving DecidableEq

/-- How a line scan can stop short of the end: `parseErr` is the caught
`std::invalid_argument` (`prop` returns early); `exn e` is an exception
unwinding out of `prop`; `ub` is signed-overflow undefined behaviour in
the tick arithmetic, after which the model asserts nothing. -/
inductive ScanStop
  | parseErr
  | exn (e : Thrown)
  | ub
deriving DecidableEq

/-- The key dispatch of `fsb::prop` (`fsb.cpp:314-446`), one parsed
`option = value` line applied to the scan state.  `.error .parseErr`
models the caught numeric-parse exceptions (`std::invalid_argument`
from `stoi`/`stod`), which make `prop` return early;
`.error (.exn .stoiOutOfRange)` the uncaught `std::out_of_range` of
`stoi`; `.error .ub` signed overflow in the tick arithmetic.
Unrecognised options and `transition` have no effect. -/
def dispatch (st : ScanState) (o v : Str) : Except ScanStop ScanState :=
  if o = "source".data then
    -- fsb.cpp:314-318: store the value minus its last four characters
    -- (`source.erase(source.end() - 4, source.end())`; for a value
    -- shorter than four characters the C++ iterator arithmetic is
    -- undefined behaviour, the model keeps the empty string)
    .ok { st with source := v.take (v.length - 4) }
  else if o ∈ fadeKeys then
    -- fsb.cpp:319-348: encode the tick, store it in the local fade
    -- variable selected by the nested ternary and in the fade field of
    -- the document keyed by the option name
    match tickCore v with
    | .invalidArg => .error .parseErr
    | .outOfRange => .error (.exn .stoiOutOfRange)
    | .ub => .error .ub
    | .ok t =>
      if o = "startFadeIn".data then
        .ok { st with startfadein := t, desc.props.fade.startFadeIn := some t }
      else if o = "startFadeOut".data then
        .ok { st with startfadeout := t, desc.props.fade.startFadeOut := some t }
      else if o = "endFadeIn".data then
        .ok { st with endfadein := t, desc.props.fade.endFadeIn := some t }
      else
        .ok { st with endfadeout := t, desc.props.fade.endFadeOut := some t }
  else if o = "blend".data then .ok { st with desc.props.blendType := v }
  else if o = "rotate".data then .ok { st with desc.props.shouldRotate := some (v = "true".data) }
  else if o = "speed".data then
    match stod? v with
    | none => .error .parseErr
    | some q => .ok { st with desc.props.rotation.rotationSpeed := some q }
  else if o = "axis".data then
    match stod? ((splitWs v).getD 0 []), stod? ((splitWs v).getD 1 []),
        stod? ((splitWs v).getD 2 []) with
    | some qx, some qy, some qz =>
      .ok { st with desc.props.rotation.axis := [qx * 180, qy * 180, qz * 180] }
    | _, _, _ => .error .parseErr
  else if o = "weather".data then .ok { st with desc.conditions.weather := some (wsList v) }
  else if o = "biomes".data then .ok { st with desc.conditions.biomes := some (wsList v) }
  else if o = "heights".data then
    match heightsRun v with
    | none => .error .parseErr
    | some hs => .ok { st with desc.conditions.heights := some hs }
  else .ok st

/-- One line of the `while (fin)` loop (`fsb.cpp:281-313`): parse and
trim, skip the line if it is empty, otherwise dispatch. -/
def processLine (st : ScanState) (temp : Str) : Except ScanStop ScanState :=
  let ov := parseLine temp
  if temp = [] then .ok st else dispatch st ov.1 ov.2

/-- The full line scan; a `ScanStop` models the early `return` on a
caught parse exception, an exception unwinding out of `prop`, or
undefined behaviour. -/
def scanLines (st : ScanState) : List Str → Except ScanStop ScanState
  | [] => .ok st
  | l :: ls =>
    match processLine st l with
    | .error e => .error e
    | .ok st2 => scanLines st2 ls

/-- Finalisation after the scan (`fsb.cpp:449-453`): set
`properties.rotation.static` to `[1,1,1]`, and when `startfadeout` was
never assigned derive `properties.fade.startFadeOut` from the sentinel
arithmetic `(endfadeout - endfadein + startfadein + 24000) % 24000`
(C++ truncating `%`). -/
def finalize (st : ScanState) : DescCore :=
  let d1 := { st.desc with props.rotation.static3 := some [1, 1, 1] }
  let sfo := some ((st.endfadeout - st.endfadein + st.startfadein + 24000).tmod 24000)
  if st.startfadeout = -1 then { d1 with props.fade.startFadeOut := sfo }
  else d1

/-- A file-system effect of the conversion. -/
inductive WriteAct
  | pngW (outPath : Str) (w h : ℕ) (pixels : List ℕ)
  | sliceW (imgPath : Str) (outDir : Str)
  | jsonW (outPath : Str) (d : Descriptor)
deriving DecidableEq

/-- The folder-extraction loop of `fsb.cpp:487-494`, run on the reversed
string: drop trailing characters until one is `'/'`; `none` models the
`throw` when the string is exhausted first. -/
def folderRev : Str → Option Str
  | [] => none
  | c :: r => if c = '/' then some (c :: r) else folderRev r

def sourceFolder (s : Str) : Option Str := (folderRev s.reverse).map List.reverse

/-- The six placeholder writes (`fsb.cpp:473-479` and `fsb.cpp:508-514`):
one encoded 1×1 RGBA image with the single pixel `{0, 0, 0, 1}`, saved
under the six face suffixes. -/
def placeholders (base : Str) : List WriteAct :=
  [WriteAct.pngW (base ++ "_top.png".data) 1 1 [0, 0, 0, 1],
   WriteAct.pngW (base ++ "_bottom.png".data) 1 1 [0, 0, 0, 1],
   WriteAct.pngW (base ++ "_north.png".data) 1 1 [0, 0, 0, 1],
   WriteAct.pngW (base ++ "_south.png".data) 1 1 [0, 0, 0, 1],
   WriteAct.pngW (base ++ "_west.png".data) 1 1 [0, 0, 0, 1],
   WriteAct.pngW (base ++ "_east.png".data) 1 1 [0, 0, 0, 1]]

/-- The non-`./` source resolution (`fsb.cpp:484-518`): split off the
folder at the last `'/'` (throwing when there is none), prepend `'/'`
to the folder when missing, then either invoke the slicer on the
existing image or write the six placeholders. -/
def nonRelative (path : Str) (ex : Str → Bool) (src : Str) :
    Except Thrown (Str × List WriteAct) :=
  match sourceFolder src with
  | none => .error .malformedSource
  | some folder0 =>
    let file := src.drop folder0.length
    let folder := if folder0.getD 0 ' ' ≠ '/' then '/' :: folder0 else folder0
    let imgPath := path ++ (if src.getD 0 ' ' = '/' then [] else "/".data) ++ src ++ ".png".data
    let acts :=
      if ex imgPath then
        [WriteAct.sliceW imgPath (path ++ "/assets/fabricskyboxes/sky".data ++ folder)]
      else placeholders (path ++ "/assets/fabricskyboxes/sky".data ++ folder ++ file)
    .ok ("fabricskyboxes:sky".data ++ folder ++ file, acts)

/-- Source resolution (`fsb.cpp:454-519`): `source.at(0) == '.' &&
source.at(1) == '/'` (with `std::string::at` throwing past the end and
`&&` short-circuiting) selects the `./`-relative branch, which drops the
leading `'.'`, resolves against the parent directory of the properties
file (dropping one trailing `'/'`; the C++ reads `temp.back()` without
an emptiness guard, which the model folds into the `getLast?` test), and
either slices the existing image or writes placeholders.  Returns the
resolved resource identifier and the write actions. -/
def resolveSource (path parent : Str) (ex : Str → Bool) :
    Str → Except Thrown (Str × List WriteAct)
  | [] => .error .atOutOfRange
  | c0 :: rest =>
    if c0 = '.' then
      match rest with
      | [] => .error .atOutOfRange
      | c1 :: _ =>
        if c1 = '/' then
          let source1 := rest
          let temp1 := if parent.getLast? = some '/' then parent.dropLast else parent
          let imgPath := temp1 ++ source1 ++ ".png".data
          let acts :=
            if ex imgPath then
              [WriteAct.sliceW imgPath (path ++ "/assets/fabricskyboxes/sky/".data)]
            else placeholders (path ++ "/assets/fabricskyboxes/sky".data ++ source1)
          .ok ("fabricskyboxes:sky".data ++ source1, acts)
        else nonRelative path ex (c0 :: rest)
    else nonRelative path ex (c0 :: rest)

/-- Outcome of `fsb::prop` for one properties file. -/
structure ConvOut where
  desc : Descriptor
  writes : List WriteAct
deriving DecidableEq

/-- `aborted`: a caught parse exception made `prop` return early with
nothing written; `thrown e`: the exception `e` escaped `prop`;
`ub`: the conversion ran into signed-overflow undefined behaviour, so
the model asserts nothing about it or about anything after it;
`ok`: the conversion finished. -/
inductive PropResult
  | aborted
  | thrown (e : Thrown)
  | ub
  | ok (o : ConvOut)
deriving DecidableEq

def PropResult.isOk : PropResult → Bool
  | .ok _ => true
  | _ => false

/-- One properties file as seen by `fsb::prop`: the stem of its name,
its parent directory, and its lines. -/
structure PFile where
  stem : Str
  parent : Str
  lines : List Str
deriving DecidableEq

/-- The tail of `fsb::prop` after source resolution (`fsb.cpp:520-532`):
build the six texture identifiers by suffixing the resolved resource id
(or propagate the escaped exception), and write the document named
after the file stem. -/
def propAfterResolve (path stem : Str) (core : DescCore) :
    Except Thrown (Str × List WriteAct) → PropResult
  | .error e => .thrown e
  | .ok (rid, acts) =>
    let tex : TexObj :=
      { top := rid ++ "_top.png".data
        bottom := rid ++ "_bottom.png".data
        north := rid ++ "_north.png".data
        south := rid ++ "_south.png".data
        west := rid ++ "_west.png".data
        east := rid ++ "_east.png".data }
    let d : Descriptor := { core := core, textures := tex }
    .ok { desc := d
          writes := acts ++
            [WriteAct.jsonW (path ++ "/assets/fabricskyboxes/sky/".data ++ stem ++ ".json".data) d] }

/-- The tail of `fsb::prop` after the line scan: early return on a
caught parse exception, propagation of an escaping exception or of
undefined behaviour, otherwise finalise and resolve. -/
def propAfterScan (path parent : Str) (ex : Str → Bool) (stem : Str) :
    Except ScanStop ScanState → PropResult
  | .error .parseErr => .aborted
  | .error (.exn e) => .thrown e
  | .error .ub => .ub
  | .ok st => propAfterResolve path stem (finalize st) (resolveSource path parent ex st.source)

/-- `fsb::prop` (`fsb.cpp:252-533`): scan the lines, finalise the
document, resolve the source (the two `std::out_of_range` exceptions
escape), emit the texture identifiers and the document write. -/
def propConv (path : Str) (ex : Str → Bool) (f : PFile) : PropResult :=
  propAfterScan path f.parent ex f.stem (scanLines (initState f.stem) f.lines)

/-- The batch loop of `fsb::convert` (`fsb.cpp:566-577`): process the
properties files in order.  A result that `prop` returns normally
(`ok` or `aborted`) lets the loop continue; an exception escaping `prop`
unwinds through the loop — the remaining files are not processed — and
is recorded as the second component.  On undefined behaviour the model
stops asserting anything: the batch is cut off at that file. -/
def runBatch (path : Str) (ex : Str → Bool) :
    List PFile → List (Str × PropResult) × Option Thrown
  | [] => ([], none)
  | f :: fs =>
    match propConv path ex f with
    | .thrown e => ([(f.stem, .thrown e)], some e)
    | .ub => ([(f.stem, .ub)], none)
    | .aborted => ((f.stem, .aborted) :: (runBatch path ex fs).1, (runBatch path ex fs).2)
    | .ok o => ((f.stem, .ok o) :: (runBatch path ex fs).1, (runBatch path ex fs).2)

/-- The four bytes of the pixel starting at byte `b`, as a tuple. -/
def pix4T (l : List ℕ) (b : ℕ) : ℕ × ℕ × ℕ × ℕ :=
  (l.getD b 0, l.getD (b + 1) 0, l.getD (b + 2) 0, l.getD (b + 3) 0)

/-! ## Helper lemmas -/

theorem splitLoop_true (cs : Str) : ∀ o v : Str,
    splitLoop cs o v true = (o, v ++ cs.filter (fun c => !(c = '='))) := by
  induction cs with
  | nil => intro o v; simp [splitLoop]
  | cons c cs ih =>
    intro o v
    by_cases hc : c = '='
    · subst hc; simp [splitLoop, ih, List.filter_cons]
    · simp [splitLoop, hc, ih, List.filter_cons]

theorem splitLoop_false (cs : Str) : ∀ o v : Str,
    splitLoop cs o v false =
      (o ++ cs.takeWhile (fun c => !(c = '=')),
       v ++ (cs.drop ((cs.takeWhile (fun c => !(c = '='))).length + 1)).filter
              (fun c => !(c = '='))) := by
  induction cs with
  | nil => intro o v; simp [splitLoop]
  | cons c cs ih =>
    intro o v
    by_cases hc : c = '='
    · subst hc
      simp [splitLoop, splitLoop_true, List.takeWhile_cons]
    · simp [splitLoop, hc, ih, List.takeWhile_cons]

theorem parseLine_eq (temp : Str) : parseLine temp =
    (trimEnd (temp.takeWhile fun c => !(c = '=')),
     trimStart ((temp.drop ((temp.takeWhile fun c => !(c = '=')).length + 1)).filter
                  fun c => !(c = '='))) := by
  unfold parseLine
  rw [splitLoop_false]
  simp

theorem eraseColonsIdx_eq_aux (n : ℕ) : ∀ (s : Str) (i : ℕ), s.length - i ≤ n →
    eraseColonsIdx s i = s.take i ++ (s.drop i).filter (fun c => !(c = ':')) := by
  induction n with
  | zero =>
    intro s i hn
    rw [eraseColonsIdx]
    have h : ¬ i < s.length := by omega
    have h1 : s.take i = s := List.take_of_length_le (by omega)
    have h2 : s.drop i = [] := List.drop_eq_nil_of_le (by omega)
    rw [dif_neg h, h1, h2]
    simp
  | succ n ih =>
    intro s i hn
    rw [eraseColonsIdx]
    by_cases h : i < s.length
    · have hget : s.getD i ' ' = s[i] := by
        simp [List.getD_eq_getElem?_getD, List.getElem?_eq_getElem h]
      by_cases hc : s.getD i ' ' = ':'
      · simp only [dif_pos h, if_pos hc]
        rw [ih (s.eraseIdx i) i (by rw [List.length_eraseIdx]; simp [h]; omega)]
        rw [List.eraseIdx_eq_take_drop_succ]
        rw [List.take_left' (by simp [List.length_take]; omega),
            List.drop_left' (by simp [List.length_take]; omega)]
        rw [List.drop_eq_getElem_cons h, List.filter_cons]
        rw [hget] at hc
        simp [hc]
      · simp only [dif_pos h, if_neg hc]
        rw [ih s (i + 1) (by omega)]
        rw [hget] at hc
        have ht : s.take (i + 1) = s.take i ++ [s[i]] := by
          rw [List.take_succ, List.getElem?_eq_getElem h]
          rfl
        have hf : List.filter (fun c => !decide (c = ':')) (s[i] :: s.drop (i + 1)) =
            s[i] :: List.filter (fun c => !decide (c = ':')) (s.drop (i + 1)) := by
          rw [List.filter_cons]
          simp [hc]
        rw [List.drop_eq_getElem_cons h, hf, ht, List.append_assoc]
        rfl
    · have h1 : s.take i = s := List.take_of_length_le (by omega)
      have h2 : s.drop i = [] := List.drop_eq_nil_of_le (by omega)
      rw [dif_neg h, h1, h2]
      simp

theorem eraseColonsIdx_eq (s : Str) : eraseColonsIdx s 0 = eraseColons s :=
  (eraseColonsIdx_eq_aux s.length s 0 (by omega)).trans (by simp [eraseColons])

theorem roundTick_eq_roundAway (n : ℤ) : roundTick n = roundAway ((n : ℚ) / 3 * 5) := by
  unfold roundTick roundAway
  rw [Int.fdiv_eq_ediv _ (by norm_num)]
  by_cases hn : 0 ≤ n
  · have hq : 0 ≤ (n : ℚ) / 3 * 5 := by positivity
    rw [if_pos hq]
    have h1 : (n : ℚ) / 3 * 5 + 1 / 2 = ((10 * n + 3 : ℤ) : ℚ) / ((6 : ℕ) : ℚ) := by
      push_cast; ring
    rw [h1, Rat.floor_intCast_div_natCast]
    norm_num
  · have hq : ¬ 0 ≤ (n : ℚ) / 3 * 5 := by
      intro hc
      have : (0 : ℚ) ≤ (n : ℚ) := by nlinarith
      exact hn (by exact_mod_cast this)
    rw [if_neg hq]
    have h1 : (n : ℚ) / 3 * 5 - 1 / 2 = -(((3 - 10 * n : ℤ) : ℚ) / ((6 : ℕ) : ℚ)) := by
      push_cast; ring
    rw [h1, Int.ceil_neg, Rat.floor_intCast_div_natCast]
    have h6 : ((6 : ℕ) : ℤ) = 6 := by norm_num
    rw [h6]
    omega

/-! ## Claim theorems -/

/-- C1 (code bug): on the 6×4 image whose byte `i` has value `i`
(transparency disabled), the slicer assigns the tiles of the claim —
top half `bottom, top, south`, bottom half `west, north, east`, with
`top` rotated clockwise by `(x,y) ↦ (h-1-y, x)` and `south`, `west`,
`north`, `east` unrotated — but the emitted `bottom` face is the
column-0 tile *unrotated*, not rotated 90° counter-clockwise as the
claim (and the source's own comment at `fsb.cpp:160`) states. -/
theorem claim_C1_bottom_unrotated :
    (pngFaces false (fun i => i) 6 4).bottom = specTile (fun i => i) 6 4 0 0 ∧
    specRotCCW (specTile (fun i => i) 6 4 0 0) =
      ⟨2, 2, [4, 5, 6, 7, 28, 29, 30, 31, 0, 1, 2, 3, 24, 25, 26, 27]⟩ ∧
    (pngFaces false (fun i => i) 6 4).bottom ≠ specRotCCW (specTile (fun i => i) 6 4 0 0) ∧
    (pngFaces false (fun i => i) 6 4).top = specRotCW (specTile (fun i => i) 6 4 1 0) ∧
    (pngFaces false (fun i => i) 6 4).south = specTile (fun i => i) 6 4 2 0 ∧
    (pngFaces false (fun i => i) 6 4).west = specTile (fun i => i) 6 4 0 1 ∧
    (pngFaces false (fun i => i) 6 4).north = specTile (fun i => i) 6 4 1 1 ∧
    (pngFaces false (fun i => i) 6 4).east = specTile (fun i => i) 6 4 2 1 := by
  refine ⟨by decide, by decide, by decide, by decide, by decide, by decide, by decide, by decide⟩

/-- C2 (counterexample): on the line `" a = b=c "` the parser yields
option `" a"` (leading whitespace kept) and value `"bc "` (trailing
whitespace kept, and the second `'='` deleted rather than kept in the
value), not the claimed `("a", "b=c")`. -/
theorem claim_C2_counterexample :
    parseLine " a = b=c ".data = (" a".data, "bc ".data) ∧
    parseLine " a = b=c ".data ≠ ("a".data, "b=c".data) := by
  refine ⟨by decide, by decide⟩

/-- C2 (amended): for every line, the option is the run of characters
before the first `'='` with only its *trailing* whitespace trimmed, and
the value is the run after the first `'='` with every further `'='`
deleted and only its *leading* whitespace trimmed; blank lines leave
the scan state unchanged. -/
theorem claim_C2_amended :
    (∀ temp : Str, parseLine temp =
      (trimEnd (temp.takeWhile fun c => !(c = '=')),
       trimStart ((temp.drop ((temp.takeWhile fun c => !(c = '=')).length + 1)).filter
                    fun c => !(c = '=')))) ∧
    (∀ st : ScanState, processLine st [] = .ok st) :=
  ⟨parseLine_eq, fun _ => rfl⟩

/-- C3: the tick encoder first replaces escaped colons, then deletes all
colons (the literal in-place erasure loop equals the digit
concatenation), appends `'0'`, parses the result as an integer, and
returns `((raw/1000)*1000 + round((raw % 1000)/3.0*5) + 18000) % 24000`
with C++ truncating `/` and `%` and `std::round` semantics
(`roundAway`); in particular the encoder maps `"6:0:0"` to `0`. -/
theorem claim_C3_tick_encoder :
    (∀ s : Str, tickCoreIdx s = tickCore s) ∧
    (∀ raw : ℤ, tickFormula raw =
      (raw.tdiv 1000 * 1000 + roundAway ((raw.tmod 1000 : ℚ) / 3 * 5) + 18000).tmod 24000) ∧
    tickCore "6:0:0".data = .ok 0 := by
  refine ⟨?_, ?_, by decide⟩
  · intro s
    unfold tickCoreIdx tickCore
    rw [eraseColonsIdx_eq]
  · intro raw
    unfold tickFormula tickT1
    rw [roundTick_eq_roundAway]

theorem isCSpace_cases {c : Char} (h : isCSpace c = true) :
    c = ' ' ∨ c = '\t' ∨ c = '\n' ∨ c = '\x0b' ∨ c = '\x0c' ∨ c = '\r' := by
  simpa [isCSpace, or_assoc] using h

theorem isDigit_not_cspace {c : Char} (h : c.isDigit = true) : isCSpace c = false := by
  cases hs : isCSpace c with
  | false => rfl
  | true =>
    exfalso
    rcases isCSpace_cases hs with rfl | rfl | rfl | rfl | rfl | rfl <;> exact absurd h (by decide)

theorem isDigit_ne_minus {c : Char} (h : c.isDigit = true) : c ≠ '-' := by
  rintro rfl; exact absurd h (by decide)

theorem isDigit_ne_plus {c : Char} (h : c.isDigit = true) : c ≠ '+' := by
  rintro rfl; exact absurd h (by decide)

theorem takeWhile_all {p : Char → Bool} : ∀ (l : Str), (∀ c ∈ l, p c = true) →
    l.takeWhile p = l
  | [], _ => rfl
  | c :: r, h => by
    rw [List.takeWhile_cons, if_pos (h c (List.mem_cons_self c r))]
    rw [takeWhile_all r (fun x hx => h x (List.mem_cons_of_mem _ hx))]

theorem replaceEsc_id : ∀ (s : Str), (∀ c ∈ s, c ≠ '\\') → replaceEsc s = s
  | [], _ => rfl
  | [_], _ => rfl
  | c :: c2 :: r, h => by
    have hc : ¬ c = '\\' := h c (List.mem_cons_self c (c2 :: r))
    have ih := replaceEsc_id (c2 :: r) (fun x hx => h x (List.mem_cons_of_mem _ hx))
    simp [replaceEsc, hc, ih]

theorem stoi32_digits (c : Char) (r : Str) (hd : ∀ x ∈ c :: r, x.isDigit = true) :
    stoi32 (c :: r) =
      (if intMax < ((digitsToNat (c :: r) : ℕ) : ℤ) then .outOfRange
       else .ok ((digitsToNat (c :: r) : ℕ) : ℤ)) := by
  have hc : c.isDigit = true := hd c (List.mem_cons_self c r)
  unfold stoi32
  rw [List.dropWhile_cons, if_neg (by simp [isDigit_not_cspace hc])]
  rw [signPart]
  rw [if_neg (isDigit_ne_minus hc), if_neg (isDigit_ne_plus hc)]
  unfold natPartInt
  rw [takeWhile_all (c :: r) hd]
  show stoi32Of (some ((digitsToNat (c :: r) : ℕ) : ℤ)) = _
  rw [stoi32Of]
  have hnn : ¬ ((digitsToNat (c :: r) : ℕ) : ℤ) < intMin := by
    have := Int.natCast_nonneg (digitsToNat (c :: r))
    unfold intMin
    omega
  by_cases hbig : intMax < ((digitsToNat (c :: r) : ℕ) : ℤ)
  · rw [if_pos (Or.inr hbig), if_pos hbig]
  · rw [if_neg (by tauto), if_neg hbig]

theorem tickFormula_range (raw : ℤ) (hraw : 0 ≤ raw) :
    0 ≤ tickFormula raw ∧ tickFormula raw < 24000 := by
  unfold tickFormula tickT1 roundTick
  have h1 : 0 ≤ raw.tdiv 1000 := Int.tdiv_nonneg hraw (by norm_num)
  have h2 : 0 ≤ raw.tmod 1000 := Int.tmod_nonneg _ hraw
  rw [Int.fdiv_eq_ediv _ (by norm_num)]
  have ht : 0 ≤ raw.tdiv 1000 * 1000 + (10 * raw.tmod 1000 + 3) / 6 + 18000 := by omega
  rw [Int.tmod_eq_emod ht (by norm_num)]
  omega

/-- C9 (counterexample): the token `"-24:00:0"` is of the form `H:M:S`
with integer components and is accepted by the encoder, but the C++
truncating `%` returns the negative tick `-6000`, outside `[0, 24000)`. -/
theorem claim_C9_counterexample :
    tickCore "-24:00:0".data = .ok (-6000) ∧ ¬ (0 ≤ (-6000 : ℤ) ∧ (-6000 : ℤ) < 24000) := by
  refine ⟨by decide, by decide⟩

/-- C9 (amended): for every time token built from digits and colons
(i.e. with nonnegative integer components) that the encoder accepts —
no ParseError (`std::invalid_argument`), no uncaught
`std::out_of_range` from `stoi`, and no signed-overflow undefined
behaviour in the tick arithmetic — the returned tick lies in
`[0, 24000)`.  Acceptance cannot be unconditional: a long token such as
`"99999:99:99"` concatenates to a value beyond `INT_MAX`, so the real
encoder throws `std::out_of_range`, which nothing catches. -/
theorem claim_C9_amended (s : Str) (hd : ∀ c ∈ s, c.isDigit = true ∨ c = ':')
    (t : ℤ) (hacc : tickCore s = .ok t) : 0 ≤ t ∧ t < 24000 := by
  unfold tickCore at hacc
  have hesc : replaceEsc s = s := by
    refine replaceEsc_id s (fun c hc => ?_)
    rcases hd c hc with h | h
    · exact fun hb => absurd h (by rw [hb]; decide)
    · rw [h]; decide
  rw [hesc] at hacc
  have hdu : ∀ c ∈ eraseColons s ++ ['0'], c.isDigit = true := by
    intro c hc
    rcases List.mem_append.1 hc with h | h
    · have hm := List.mem_filter.1 h
      rcases hd c hm.1 with hdig | hcol
      · exact hdig
      · rw [hcol] at hm; simp at hm
    · simp at h; rw [h]; decide
  obtain ⟨c, r, hcr⟩ : ∃ c r, eraseColons s ++ ['0'] = c :: r := by
    cases h : eraseColons s ++ ['0'] with
    | nil => simp at h
    | cons c r => exact ⟨c, r, rfl⟩
  rw [hcr] at hacc
  rw [hcr] at hdu
  rw [stoi32_digits c r hdu] at hacc
  by_cases hbig : intMax < ((digitsToNat (c :: r) : ℕ) : ℤ)
  · rw [if_pos hbig] at hacc
    exact absurd hacc (by simp [tickOf])
  · rw [if_neg hbig] at hacc
    rw [tickOf] at hacc
    by_cases h1 : tickT1 ((digitsToNat (c :: r) : ℕ) : ℤ) < intMin ∨
        intMax < tickT1 ((digitsToNat (c :: r) : ℕ) : ℤ)
    · rw [if_pos h1] at hacc
      exact absurd hacc (by simp)
    · rw [if_neg h1] at hacc
      by_cases h2 : tickT1 ((digitsToNat (c :: r) : ℕ) : ℤ) + 18000 < intMin ∨
          intMax < tickT1 ((digitsToNat (c :: r) : ℕ) : ℤ) + 18000
      · rw [if_pos h2] at hacc
        exact absurd hacc (by simp)
      · rw [if_neg h2] at hacc
        simp only [IntRes.ok.injEq] at hacc
        subst hacc
        exact tickFormula_range _ (Int.natCast_nonneg _)

/-- C9 (witness for the amended theorem). -/
theorem claim_C9_witness :
    (∀ c ∈ "6:0:0".data, c.isDigit = true ∨ c = ':') ∧
    tickCore "6:0:0".data = .ok 0 ∧ 0 ≤ (0 : ℤ) ∧ (0 : ℤ) < 24000 :=
  ⟨by decide, by decide, claim_C9_amended "6:0:0".data (by decide) 0 (by decide)⟩

/-- C5 (counterexample): in a batch of two files where the first one has
a source path without a folder separator, the thrown
`std::out_of_range` unwinds through the directory loop of
`fsb::convert`: the second (perfectly convertible) file is never
processed, contradicting the claim that every sibling is still
processed to completion. -/
theorem claim_C5_counterexample :
    (propConv "out".data (fun _ => false)
      ⟨"bbb".data, "p".data, ["source=a/b.png".data]⟩).isOk = true ∧
    runBatch "out".data (fun _ => false)
      [⟨"aaa".data, "p".data, ["source=nofolder.png".data]⟩,
       ⟨"bbb".data, "p".data, ["source=a/b.png".data]⟩] =
      ([("aaa".data, .thrown .malformedSource)], some .malformedSource) := by
  refine ⟨by decide, by decide⟩

/-- C5 (amended): a ParseError (e.g. `speed=notanumber`, a caught
`std::invalid_argument`) aborts only that file — no write action is
produced for it — and every sibling file of the batch is processed
exactly as if the bad file were absent; but a MalformedInputError (the
uncaught `std::out_of_range` for a source path without `'/'`) aborts
that file *and* stops the batch: no later sibling is processed. -/
theorem claim_C5_amended (path : Str) (ex : Str → Bool)
    (stem parent stem2 parent2 : Str) (fs : List PFile) :
    propConv path ex ⟨stem, parent, ["speed=notanumber".data]⟩ = .aborted ∧
    runBatch path ex (⟨stem, parent, ["speed=notanumber".data]⟩ :: fs) =
      ((stem, .aborted) :: (runBatch path ex fs).1, (runBatch path ex fs).2) ∧
    propConv path ex ⟨stem2, parent2, ["source=nofolder.png".data]⟩ = .thrown .malformedSource ∧
    runBatch path ex (⟨stem2, parent2, ["source=nofolder.png".data]⟩ :: fs) =
      ([(stem2, .thrown .malformedSource)], some .malformedSource) :=
  ⟨rfl, rfl, rfl, rfl⟩

/-- C8 (counterexample): on the exact claimed lines `source=./foo`,
`startFadeIn=6:0:0`, `blend=add` the conversion does not produce a
descriptor at all: storing the source strips the last four characters
of `./foo`, leaving the one-character string `"."`, and the subsequent
`source.at(1)` throws `std::out_of_range`. -/
theorem claim_C8_counterexample :
    propConv "out".data (fun _ => false)
      ⟨"sky1".data, "pack/sky".data,
       ["source=./foo".data, "startFadeIn=6:0:0".data, "blend=add".data]⟩
      = .thrown .atOutOfRange := by decide

/-- C8 (amended): with `source=./foo.png` (so that the stripped four
characters are the `.png` extension, as the key's contract expects),
the mapper produces a descriptor whose `textures.top` is
`fabricskyboxes:sky/foo_top.png` and whose `properties.blend.type` is
`add`. -/
theorem claim_C8_amended :
    ∃ out, propConv "out".data (fun _ => false)
      ⟨"sky1".data, "pack/sky".data,
       ["source=./foo.png".data, "startFadeIn=6:0:0".data, "blend=add".data]⟩ = .ok out ∧
      out.desc.textures.top = "fabricskyboxes:sky/foo_top.png".data ∧
      out.desc.core.props.blendType = "add".data := by
  refine ⟨_, rfl, by decide, by decide⟩

theorem dispatch_source (st : ScanState) (o v : Str) (st2 : ScanState)
    (h : dispatch st o v = .ok st2) (ho : o ≠ "source".data) : st2.source = st.source := by
  unfold dispatch at h
  rw [if_neg ho] at h
  by_cases h1 : o ∈ fadeKeys
  · rw [if_pos h1] at h
    cases htc : tickCore v with
    | invalidArg => rw [htc] at h; exact absurd h (by simp)
    | outOfRange => rw [htc] at h; exact absurd h (by simp)
    | ub => rw [htc] at h; exact absurd h (by simp)
    | ok t =>
      rw [htc] at h
      split_ifs at h <;> (simp only [Except.ok.injEq] at h; subst h; rfl)
  · rw [if_neg h1] at h
    split_ifs at h with h2 h3 h4 h5 h6 h7 h8
    all_goals
      first
        | (simp only [Except.ok.injEq] at h; subst h; rfl)
        | (split at h <;>
            first
              | (simp only [Except.ok.injEq] at h; subst h; rfl)
              | (exact absurd h (by simp)))

theorem scanLines_source : ∀ (ls : List Str) (st st2 : ScanState),
    scanLines st ls = .ok st2 → (∀ l ∈ ls, (parseLine l).1 ≠ "source".data) →
    st2.source = st.source
  | [], st, st2, h, _ => by
    unfold scanLines at h
    simp only [Except.ok.injEq] at h
    rw [← h]
  | l :: ls, st, st2, h, hl => by
    unfold scanLines at h
    cases hpl : processLine st l with
    | error e => rw [hpl] at h; exact absurd h (by simp)
    | ok stm =>
      rw [hpl] at h
      have h1 : stm.source = st.source := by
        unfold processLine at hpl
        by_cases he : l = []
        · rw [if_pos he] at hpl
          simp only [Except.ok.injEq] at hpl
          rw [← hpl]
        · rw [if_neg he] at hpl
          exact dispatch_source st _ _ stm hpl (hl l (List.mem_cons_self l ls))
      have h2 := scanLines_source ls stm st2 h (fun x hx => hl x (List.mem_cons_of_mem _ hx))
      rw [h2, h1]

theorem folderRev_none : ∀ (s : Str), (∀ c ∈ s, c ≠ '/') → folderRev s = none
  | [], _ => rfl
  | c :: r, h => by
    have hc : ¬ c = '/' := h c (List.mem_cons_self c r)
    have ih := folderRev_none r (fun x hx => h x (List.mem_cons_of_mem _ hx))
    simp [folderRev, hc, ih]

theorem resolveSource_malformed (path parent : Str) (ex : Str → Bool) (src : Str)
    (hne : src ≠ []) (hslash : ∀ c ∈ src, c ≠ '/')
    (hdot : src.getD 0 ' ' = '.' → 2 ≤ src.length) :
    resolveSource path parent ex src = .error .malformedSource := by
  have hnr : nonRelative path ex src = .error .malformedSource := by
    unfold nonRelative sourceFolder
    rw [folderRev_none src.reverse (fun c hc => hslash c (List.mem_reverse.1 hc))]
    rfl
  cases src with
  | nil => exact absurd rfl hne
  | cons c0 rest =>
    simp only [resolveSource]
    by_cases hc0 : c0 = '.'
    · rw [if_pos hc0]
      cases rest with
      | nil =>
        exfalso
        have h2 := hdot (by rw [hc0]; rfl)
        simp at h2
      | cons c1 r2 =>
        have hc1 : ¬ c1 = '/' := hslash c1 (by simp)
        change (if c1 = '/' then _ else _) = _
        rw [if_neg hc1]
        exact hnr
    · rw [if_neg hc0]
      exact hnr

/-- C10 (counterexample): a properties document with no `source` key
need not fail with the MalformedInputError: a document whose only line
is `speed=notanumber` aborts with the caught ParseError instead (the
scan returns before source resolution is ever reached). -/
theorem claim_C10_counterexample :
    propConv "out".data (fun _ => false)
      ⟨"sky1".data, "p".data, ["speed=notanumber".data]⟩ = .aborted ∧
    PropResult.aborted ≠ .thrown .malformedSource := by
  refine ⟨by decide, by decide⟩

/-- C10 (amended): for every properties document with no `source` key
whose lines all scan without a ParseError, processed for a file whose
stem is nonempty, contains no `'/'`, and is not the single character
`'.'` (these hold for every real stem of a `<name>.properties` file),
the conversion fails with the MalformedInputError thrown when the
non-relative resolution loop exhausts the defaulted source (the stem)
without finding a `'/'`. -/
theorem claim_C10_amended (path parent : Str) (ex : Str → Bool) (stem : Str)
    (lines : List Str) (st : ScanState)
    (hscan : scanLines (initState stem) lines = .ok st)
    (hsrc : ∀ l ∈ lines, (parseLine l).1 ≠ "source".data)
    (hne : stem ≠ []) (hslash : ∀ c ∈ stem, c ≠ '/')
    (hdot : stem.getD 0 ' ' = '.' → 2 ≤ stem.length) :
    propConv path ex ⟨stem, parent, lines⟩ = .thrown .malformedSource := by
  have hsource : st.source = stem := scanLines_source lines (initState stem) st hscan hsrc
  show propAfterScan path parent ex stem (scanLines (initState stem) lines) = _
  rw [hscan]
  show propAfterResolve path stem (finalize st) (resolveSource path parent ex st.source) = _
  rw [hsource, resolveSource_malformed path parent ex stem hne hslash hdot]
  rfl

/-- C10 (witness for the amended theorem). -/
theorem claim_C10_witness :
    propConv "out".data (fun _ => false)
      ⟨"sky1".data, "p".data, ["blend=add".data]⟩ = .thrown .malformedSource :=
  claim_C10_amended "out".data "p".data (fun _ => false) "sky1".data
    ["blend=add".data] _ rfl (by decide) (by decide) (by decide) (by decide)

theorem nonRelative_placeholder (path : Str) (src rid : Str) (acts : List WriteAct)
    (h : nonRelative path (fun _ => false) src = .ok (rid, acts)) :
    ∃ base, acts = placeholders base := by
  unfold nonRelative at h
  cases hsf : sourceFolder src with
  | none => rw [hsf] at h; exact absurd h (by simp)
  | some folder0 =>
    rw [hsf] at h
    simp at h
    exact ⟨_, h.2.symm⟩

theorem resolveSource_placeholder (path parent : Str) (src rid : Str) (acts : List WriteAct)
    (h : resolveSource path parent (fun _ => false) src = .ok (rid, acts)) :
    ∃ base, acts = placeholders base := by
  cases src with
  | nil => exact absurd h (by simp [resolveSource])
  | cons c0 rest =>
    simp only [resolveSource] at h
    by_cases hc0 : c0 = '.'
    · rw [if_pos hc0] at h
      cases rest with
      | nil => exact absurd h (by simp)
      | cons c1 r2 =>
        by_cases hc1 : c1 = '/'
        · change (if c1 = '/' then _ else _) = _ at h
          rw [if_pos hc1] at h
          simp at h
          exact ⟨_, h.2.symm⟩
        · change (if c1 = '/' then _ else _) = _ at h
          rw [if_neg hc1] at h
          exact nonRelative_placeholder path _ rid acts h
    · rw [if_neg hc0] at h
      exact nonRelative_placeholder path _ rid acts h

/-- C4 (counterexample): when the referenced image is missing, the six
placeholder pixels written are `{0, 0, 0, 1}` — black with alpha 1,
i.e. *nearly transparent* — not the claimed fully-opaque black
`{0, 0, 0, 255}`. -/
theorem claim_C4_counterexample :
    ∃ out, propConv "out".data (fun _ => false)
      ⟨"sky1".data, "p".data, ["source=a/b.png".data]⟩ = .ok out ∧
      out.writes.head? =
        some (WriteAct.pngW "out/assets/fabricskyboxes/sky/a/b_top.png".data 1 1 [0, 0, 0, 1]) ∧
      ([0, 0, 0, 1] : List ℕ) ≠ [0, 0, 0, 255] := by
  refine ⟨_, rfl, by decide, by decide⟩

/-- C4 (amended): whenever a conversion whose referenced source image
does not exist (existence oracle constantly false) completes without an
error, it produces a complete descriptor (written as the final json
action, named after the file stem) and exactly six 1×1 placeholder
PNGs, one per face suffix, each with the single black alpha-1 pixel
`{0, 0, 0, 1}`. -/
theorem claim_C4_amended (path parent stem : Str) (lines : List Str) (out : ConvOut)
    (h : propConv path (fun _ => false) ⟨stem, parent, lines⟩ = .ok out) :
    ∃ base, out.writes = placeholders base ++
      [WriteAct.jsonW (path ++ "/assets/fabricskyboxes/sky/".data ++ stem ++ ".json".data)
        out.desc] := by
  rw [show propConv path (fun _ => false) ⟨stem, parent, lines⟩ =
      propAfterScan path parent (fun _ => false) stem
        (scanLines (initState stem) lines) from rfl] at h
  cases hscan : scanLines (initState stem) lines with
  | error e => rw [hscan] at h; exact absurd h (by cases e <;> simp [propAfterScan])
  | ok st =>
    rw [hscan] at h
    rw [show propAfterScan path parent (fun _ => false) stem (.ok st) =
        propAfterResolve path stem (finalize st)
          (resolveSource path parent (fun _ => false) st.source) from rfl] at h
    cases hres : resolveSource path parent (fun _ => false) st.source with
    | error e => rw [hres] at h; exact absurd h (by simp [propAfterResolve])
    | ok pr =>
      obtain ⟨rid, acts⟩ := pr
      rw [hres] at h
      obtain ⟨base, hb⟩ := resolveSource_placeholder path parent st.source rid acts hres
      simp only [propAfterResolve] at h
      simp only [PropResult.ok.injEq] at h
      subst h
      exact ⟨base, by simp [hb]⟩

/-- C4 (witness for the amended theorem). -/
theorem claim_C4_witness :
    ∃ out, propConv "out".data (fun _ => false)
      ⟨"sky1".data, "p".data, ["source=a/b.png".data]⟩ = .ok out ∧
      ∃ base, out.writes = placeholders base ++
        [WriteAct.jsonW ("out".data ++ "/assets/fabricskyboxes/sky/".data ++ "sky1".data ++
          ".json".data) out.desc] := by
  refine ⟨_, rfl, ?_⟩
  exact claim_C4_amended "out".data "p".data "sky1".data ["source=a/b.png".data] _ rfl

theorem transformPixel_black : transformPixel 0 0 0 = (255, 255, 255, 0) := by
  have h1 : rgb2hsv 0 0 0 = (0, 0, 0) := by
    unfold rgb2hsv qcompare qfmod qtrunc qeps
    norm_num
  have h2 : hsv2rgb 0 0 100 = (255, 255, 255) := by
    unfold hsv2rgb qfmod qtrunc
    norm_num
  unfold transformPixel
  norm_num [h1, h2]
  unfold toByte qtrunc
  norm_num
  decide

theorem getD_set_ne (l : List ℕ) (m n v : ℕ) (h : m ≠ n) :
    (l.set m v).getD n 0 = l.getD n 0 := by
  simp [List.getD_eq_getElem?_getD, List.getElem?_set_ne h]

theorem getD_set_self (l : List ℕ) (m v : ℕ) (h : m < l.length) :
    (l.set m v).getD m 0 = v := by
  simp [List.getD_eq_getElem?_getD, List.getElem?_set_eq_of_lt v h]

theorem length_stepB (w h : ℕ) (img : List ℕ) (p : ℕ × ℕ) :
    (stepB w h img p).length = img.length := by
  simp only [stepB]
  split
  · simp
  · rfl

theorem getD_stepB_ne (w h : ℕ) (img : List ℕ) (p : ℕ × ℕ) (n : ℕ)
    (hn : n < idxB w h (4 * p.1) p.2 ∨ idxB w h (4 * p.1) p.2 + 3 < n) :
    (stepB w h img p).getD n 0 = img.getD n 0 := by
  simp only [stepB]
  split
  · rw [getD_set_ne _ _ _ _ (by omega), getD_set_ne _ _ _ _ (by omega),
      getD_set_ne _ _ _ _ (by omega), getD_set_ne _ _ _ _ (by omega)]
  · rfl

theorem stepB_skip (w h : ℕ) (img : List ℕ) (p : ℕ × ℕ)
    (hop : ¬ img.getD (idxB w h (4 * p.1) p.2 + 3) 0 = 255) :
    stepB w h img p = img := by
  simp only [stepB]
  rw [if_neg hop]

theorem stepB_hit_reads (w h : ℕ) (img : List ℕ) (p : ℕ × ℕ)
    (hop : img.getD (idxB w h (4 * p.1) p.2 + 3) 0 = 255)
    (hlen : idxB w h (4 * p.1) p.2 + 3 < img.length) :
    pix4T (stepB w h img p) (idxB w h (4 * p.1) p.2) =
      transformPixel (img.getD (idxB w h (4 * p.1) p.2) 0)
        (img.getD (idxB w h (4 * p.1) p.2 + 1) 0)
        (img.getD (idxB w h (4 * p.1) p.2 + 2) 0) := by
  simp only [stepB]
  rw [if_pos hop]
  unfold pix4T
  refine Prod.ext ?_ (Prod.ext ?_ (Prod.ext ?_ ?_))
  · show (List.set _ _ _).getD _ 0 = _
    rw [getD_set_ne _ _ _ _ (by omega), getD_set_ne _ _ _ _ (by omega),
      getD_set_ne _ _ _ _ (by omega), getD_set_self _ _ _ (by omega)]
  · show (List.set _ _ _).getD _ 0 = _
    rw [getD_set_ne _ _ _ _ (by omega), getD_set_ne _ _ _ _ (by omega),
      getD_set_self _ _ _ (by rw [List.length_set]; omega)]
  · show (List.set _ _ _).getD _ 0 = _
    rw [getD_set_ne _ _ _ _ (by omega),
      getD_set_self _ _ _ (by rw [List.length_set, List.length_set]; omega)]
  · show (List.set _ _ _).getD _ 0 = _
    rw [getD_set_self _ _ _ (by rw [List.length_set, List.length_set, List.length_set]; omega)]

theorem foldl_stepB_untouched (w h : ℕ) : ∀ (L : List (ℕ × ℕ)) (img : List ℕ) (n : ℕ),
    (∀ p ∈ L, n < idxB w h (4 * p.1) p.2 ∨ idxB w h (4 * p.1) p.2 + 3 < n) →
    (L.foldl (stepB w h) img).getD n 0 = img.getD n 0
  | [], _, _, _ => rfl
  | p :: L, img, n, hL => by
    rw [List.foldl_cons]
    rw [foldl_stepB_untouched w h L _ n (fun q hq => hL q (List.mem_cons_of_mem _ hq))]
    exact getD_stepB_ne w h img p n (hL p (List.mem_cons_self p L))

theorem foldl_stepB_length (w h : ℕ) : ∀ (L : List (ℕ × ℕ)) (img : List ℕ),
    (L.foldl (stepB w h) img).length = img.length
  | [], _ => rfl
  | p :: L, img => by
    rw [List.foldl_cons, foldl_stepB_length w h L _, length_stepB]

theorem idxB_eq (pw h i1 j : ℕ) (_hi : i1 < pw) (hj : j < h) :
    idxB (4 * pw) h (4 * i1) j = 4 * (pw * (h - 1 - j) + i1) := by
  unfold idxB
  have hj1 : h - 1 - j = h - (j + 1) := by omega
  rw [hj1]
  have hsum : (j + 1) + (h - (j + 1)) = h := by omega
  have hBC : pw * (j + 1) + pw * (h - (j + 1)) = pw * h := by
    rw [← Nat.mul_add, hsum]
  have hmul : (j + 1) * (4 * pw) = 4 * (pw * (j + 1)) := by ring
  have hassoc : 4 * pw * h = 4 * (pw * h) := by ring
  rw [hmul, hassoc]
  omega

theorem base_inj (pw h i1 j i1b jb : ℕ) (hi : i1 < pw) (hj : j < h) (hib : i1b < pw)
    (hjb : jb < h) (hne : (i1, j) ≠ (i1b, jb)) :
    pw * (h - 1 - j) + i1 ≠ pw * (h - 1 - jb) + i1b := by
  intro he
  have hpw : 0 < pw := by omega
  have h1 : (pw * (h - 1 - j) + i1) / pw = h - 1 - j := by
    rw [Nat.mul_add_div hpw, Nat.div_eq_of_lt hi]
    omega
  have h2 : (pw * (h - 1 - jb) + i1b) / pw = h - 1 - jb := by
    rw [Nat.mul_add_div hpw, Nat.div_eq_of_lt hib]
    omega
  have h3 : (pw * (h - 1 - j) + i1) % pw = i1 := by
    rw [Nat.mul_add_mod, Nat.mod_eq_of_lt hi]
  have h4 : (pw * (h - 1 - jb) + i1b) % pw = i1b := by
    rw [Nat.mul_add_mod, Nat.mod_eq_of_lt hib]
  have hjj : h - 1 - j = h - 1 - jb := by rw [← h1, ← h2, he]
  have hii : i1 = i1b := by rw [← h3, ← h4, he]
  have hjeq : j = jb := by omega
  exact hne (by rw [hii, hjeq])

theorem prodL_mem (xs ys : List ℕ) (p : ℕ × ℕ) :
    p ∈ prodL xs ys ↔ p.1 ∈ xs ∧ p.2 ∈ ys := by
  obtain ⟨a, b⟩ := p
  induction xs with
  | nil => simp [prodL]
  | cons x xs ih =>
    rw [show prodL (x :: xs) ys = (ys.map fun y => (x, y)) ++ prodL xs ys from rfl]
    simp only [List.mem_append, List.mem_map, List.mem_cons, ih, Prod.mk.injEq]
    constructor
    · rintro (⟨y, hy, hx, hyb⟩ | ⟨h1, h2⟩)
      · exact ⟨Or.inl hx.symm, hyb ▸ hy⟩
      · exact ⟨Or.inr h1, h2⟩
    · rintro ⟨hx | hx, hb⟩
      · exact Or.inl ⟨b, hb, hx.symm, rfl⟩
      · exact Or.inr ⟨hx, hb⟩

theorem prodL_nodup (xs ys : List ℕ) (hx : xs.Nodup) (hy : ys.Nodup) :
    (prodL xs ys).Nodup := by
  induction xs with
  | nil => simp [prodL]
  | cons x xs ih =>
    rw [show prodL (x :: xs) ys = (ys.map fun y => (x, y)) ++ prodL xs ys from rfl]
    obtain ⟨hxmem, hxs⟩ := List.nodup_cons.1 hx
    rw [List.nodup_append]
    refine ⟨hy.map fun a b hab => ?_, ih hxs, ?_⟩
    · simpa using congrArg Prod.snd hab
    · intro pp hp1 hp2
      obtain ⟨y, _, hyp⟩ := List.mem_map.1 hp1
      have hfst : pp.1 = x := by rw [← hyp]
      have hmem := (prodL_mem xs ys pp).1 hp2
      exact hxmem (hfst ▸ hmem.1)

/-- C6: the transparency filter leaves the image unchanged when the
transparency flag is disabled; when enabled, every pixel whose alpha
byte differs from 255 keeps its four bytes, and every pixel with alpha
255 is rewritten by `transformPixel` (RGB to HSV, new alpha = V
rescaled from `[0,100]` to `[0,255]`, V reset to 100, HSV back to RGB);
in particular opaque black `(0,0,0,255)` becomes exactly
`(255,255,255,0)`. -/
theorem claim_C6_transparency (pw h : ℕ) (img : List ℕ) (hl : img.length = 4 * pw * h)
    (q : ℕ) (hq : q < pw * h) :
    convertBuf false (4 * pw) h img = img ∧
    (img.getD (4 * q + 3) 0 = 255 →
      pix4T (convertBuf true (4 * pw) h img) (4 * q) =
        transformPixel (img.getD (4 * q) 0) (img.getD (4 * q + 1) 0)
          (img.getD (4 * q + 2) 0)) ∧
    (¬ img.getD (4 * q + 3) 0 = 255 →
      pix4T (convertBuf true (4 * pw) h img) (4 * q) = pix4T img (4 * q)) ∧
    transformPixel 0 0 0 = (255, 255, 255, 0) := by
  rcases Nat.eq_zero_or_pos pw with rfl | hpw
  · simp at hq
  rcases Nat.eq_zero_or_pos h with rfl | hh
  · simp at hq
  obtain ⟨a, b, hqeq, hb, ha⟩ : ∃ a b : ℕ, q = pw * a + b ∧ b < pw ∧ a < h := by
    refine ⟨q / pw, q % pw, (Nat.div_add_mod q pw).symm, Nat.mod_lt _ hpw, ?_⟩
    rw [Nat.div_lt_iff_lt_mul hpw, Nat.mul_comm h pw]
    exact hq
  have hrr : (4 * pw + 3) / 4 = pw := by omega
  have hp0mem : ((b, h - 1 - a) : ℕ × ℕ) ∈ convertPairs (4 * pw) h := by
    unfold convertPairs
    rw [prodL_mem]
    refine ⟨?_, ?_⟩
    · rw [List.mem_range, hrr]
      exact hb
    · rw [List.mem_range]
      omega
  have hbase : idxB (4 * pw) h (4 * b) (h - 1 - a) = 4 * q := by
    rw [idxB_eq pw h b (h - 1 - a) hb (by omega)]
    have h2 : h - 1 - (h - 1 - a) = a := by omega
    rw [h2, ← hqeq]
  obtain ⟨L1, L2, hsplit⟩ := List.append_of_mem hp0mem
  have hnodup : (convertPairs (4 * pw) h).Nodup :=
    prodL_nodup _ _ (List.nodup_range _) (List.nodup_range _)
  rw [hsplit, List.nodup_append] at hnodup
  obtain ⟨hnd1, hnd2, hdisj12⟩ := hnodup
  have hnotin1 : ((b, h - 1 - a) : ℕ × ℕ) ∉ L1 :=
    fun hm => hdisj12 hm (List.mem_cons_self _ _)
  have hnotin2 : ((b, h - 1 - a) : ℕ × ℕ) ∉ L2 := (List.nodup_cons.1 hnd2).1
  have hsep : ∀ pp : ℕ × ℕ, pp ∈ L1 ∨ pp ∈ L2 → ∀ n, 4 * q ≤ n → n ≤ 4 * q + 3 →
      n < idxB (4 * pw) h (4 * pp.1) pp.2 ∨ idxB (4 * pw) h (4 * pp.1) pp.2 + 3 < n := by
    intro pp hpp n hn1 hn2
    have hppmem : pp ∈ convertPairs (4 * pw) h := by
      rw [hsplit]
      rcases hpp with hmem | hmem
      · exact List.mem_append.2 (Or.inl hmem)
      · exact List.mem_append.2 (Or.inr (List.mem_cons_of_mem _ hmem))
    have hppb := (prodL_mem (List.range ((4 * pw + 3) / 4)) (List.range h) pp).1 hppmem
    have hpp1 : pp.1 < pw := by
      have := List.mem_range.1 hppb.1
      omega
    have hpp2 : pp.2 < h := List.mem_range.1 hppb.2
    have hppne : pp ≠ ((b, h - 1 - a) : ℕ × ℕ) := by
      rintro rfl
      rcases hpp with hmem | hmem
      · exact hnotin1 hmem
      · exact hnotin2 hmem
    have hppair : (pp.1, pp.2) ≠ ((b, h - 1 - a) : ℕ × ℕ) := by
      intro hc
      exact hppne (by rw [← hc])
    have hx := base_inj pw h pp.1 pp.2 b (h - 1 - a) hpp1 hpp2 hb (by omega) hppair
    have h5 : h - 1 - (h - 1 - a) = a := by omega
    rw [h5, ← hqeq] at hx
    rw [idxB_eq pw h pp.1 pp.2 hpp1 hpp2]
    omega
  have hmain : pix4T (convertBuf true (4 * pw) h img) (4 * q) =
      if img.getD (4 * q + 3) 0 = 255 then
        transformPixel (img.getD (4 * q) 0) (img.getD (4 * q + 1) 0) (img.getD (4 * q + 2) 0)
      else pix4T img (4 * q) := by
    show pix4T (List.foldl (stepB (4 * pw) h) img (convertPairs (4 * pw) h)) (4 * q) = _
    rw [hsplit, List.foldl_append, List.foldl_cons]
    have hL1 : ∀ n, 4 * q ≤ n → n ≤ 4 * q + 3 →
        (List.foldl (stepB (4 * pw) h) img L1).getD n 0 = img.getD n 0 := by
      intro n hn1 hn2
      exact foldl_stepB_untouched _ _ L1 img n
        (fun pp hpp => hsep pp (Or.inl hpp) n hn1 hn2)
    have hL1len : (List.foldl (stepB (4 * pw) h) img L1).length = img.length :=
      foldl_stepB_length _ _ _ _
    set img1 := List.foldl (stepB (4 * pw) h) img L1 with himg1
    have hL2un : ∀ n, 4 * q ≤ n → n ≤ 4 * q + 3 →
        (List.foldl (stepB (4 * pw) h) (stepB (4 * pw) h img1 (b, h - 1 - a)) L2).getD n 0 =
        (stepB (4 * pw) h img1 (b, h - 1 - a)).getD n 0 := by
      intro n hn1 hn2
      exact foldl_stepB_untouched _ _ L2 _ n
        (fun pp hpp => hsep pp (Or.inr hpp) n hn1 hn2)
    have h4q3 : img1.getD (4 * q + 3) 0 = img.getD (4 * q + 3) 0 := hL1 _ (by omega) (by omega)
    by_cases hop : img.getD (4 * q + 3) 0 = 255
    · rw [if_pos hop]
      have hopb : img1.getD (idxB (4 * pw) h (4 * b) (h - 1 - a) + 3) 0 = 255 := by
        rw [hbase, h4q3]
        exact hop
      have hlenb : idxB (4 * pw) h (4 * b) (h - 1 - a) + 3 < img1.length := by
        have h4 : (4 : ℕ) * pw * h = 4 * (pw * h) := by ring
        rw [hbase, hL1len, hl, h4]
        omega
      have hstep := stepB_hit_reads (4 * pw) h img1 (b, h - 1 - a) hopb hlenb
      rw [hbase] at hstep
      have hs1 := congrArg (fun t => t.1) hstep
      have hs2 := congrArg (fun t => t.2.1) hstep
      have hs3 := congrArg (fun t => t.2.2.1) hstep
      have hs4 := congrArg (fun t => t.2.2.2) hstep
      simp only [pix4T] at hs1 hs2 hs3 hs4
      unfold pix4T
      rw [hL2un (4 * q) (by omega) (by omega), hL2un (4 * q + 1) (by omega) (by omega),
        hL2un (4 * q + 2) (by omega) (by omega), hL2un (4 * q + 3) (by omega) (by omega)]
      rw [hs1, hs2, hs3, hs4]
      rw [hL1 (4 * q) (by omega) (by omega), hL1 (4 * q + 1) (by omega) (by omega),
        hL1 (4 * q + 2) (by omega) (by omega)]
    · rw [if_neg hop]
      have hopb : ¬ img1.getD (idxB (4 * pw) h (4 * b) (h - 1 - a) + 3) 0 = 255 := by
        rw [hbase, h4q3]
        exact hop
      unfold pix4T
      rw [hL2un (4 * q) (by omega) (by omega), hL2un (4 * q + 1) (by omega) (by omega),
        hL2un (4 * q + 2) (by omega) (by omega), hL2un (4 * q + 3) (by omega) (by omega)]
      rw [stepB_skip _ _ _ _ hopb]
      rw [hL1 (4 * q) (by omega) (by omega), hL1 (4 * q + 1) (by omega) (by omega),
        hL1 (4 * q + 2) (by omega) (by omega), hL1 (4 * q + 3) (by omega) (by omega)]
  refine ⟨rfl, fun hyp => ?_, fun hyp => ?_, transformPixel_black⟩
  · rw [hmain, if_pos hyp]
  · rw [hmain, if_neg hyp]

/-- C6 (witness): the theorem applied to the 1×1 image with the single
opaque black pixel. -/
theorem claim_C6_witness :
    ([0, 0, 0, 255] : List ℕ).length = 4 * 1 * 1 ∧ 0 < 1 * 1 ∧
    (([0, 0, 0, 255] : List ℕ).getD (4 * 0 + 3) 0 = 255 →
      pix4T (convertBuf true (4 * 1) 1 [0, 0, 0, 255]) (4 * 0) =
        transformPixel (([0, 0, 0, 255] : List ℕ).getD (4 * 0) 0)
          (([0, 0, 0, 255] : List ℕ).getD (4 * 0 + 1) 0)
          (([0, 0, 0, 255] : List ℕ).getD (4 * 0 + 2) 0)) :=
  ⟨by decide, by decide,
    (claim_C6_transparency 1 1 [0, 0, 0, 255] (by decide) 0 (by decide)).2.1⟩
